import Mathlib

/-!
Shallow embedding of the query/aggregation core of `src/app.py` (an NYC-taxi
dashboard): trip records, the three filter functions (`filterDate`,
`filterHour`, `filterPaymentType`), the payment-label derivation
(`payment_map` / `fillna("Unknown")`), and the aggregations `constructBar`,
`constructLine`, `constructHist`, `constructHeat`.

Dataframes become lists of `TripRecord`; monetary and distance values become
rationals; a timestamp is a calendar date (days since an epoch) plus an
hour-of-day in `Fin 24`.  SQL `GROUP BY` is embedded as deduplication of the
key column followed by per-key counting, and `ORDER BY` as `insertionSort`
by the ordering column.
-/

/-- A date-and-time value: `date` counts calendar days from an epoch that
fell on a Thursday (day 0), `hour` is the hour of day. `dt.date`, `HOUR` and
`DAYNAME` in the source read these two components. -/
structure Timestamp where
  date : ℕ
  hour : Fin 24
deriving DecidableEq

/-- Names of days of the week, indexed by `date % 7` (day 0 is a Thursday,
matching the Unix epoch used by the datetime columns). -/
def dayNames : List String :=
  ["Thursday", "Friday", "Saturday", "Sunday", "Monday", "Tuesday", "Wednesday"]

/-- Embeds `DAYNAME(ts)`: the calendar day name of a timestamp. -/
def dayname (t : Timestamp) : String :=
  dayNames.getD (t.date % 7) "Thursday"

/-- One row of the trip dataframe, with the columns the core reads.
`payment_label` is the derived column added at `app.py:189`. -/
structure TripRecord where
  tpep_pickup_datetime : Timestamp
  tpep_dropoff_datetime : Timestamp
  PU_Zone : String
  fare_amount : ℚ
  total_amount : ℚ
  trip_distance : ℚ
  payment_type : Option ℤ
  payment_label : String
deriving DecidableEq

/-- The derived `pickup_hour` column (`app.py:137`):
`df['tpep_pickup_datetime'].dt.hour`. -/
def pickup_hour (r : TripRecord) : ℕ :=
  r.tpep_pickup_datetime.hour

/-- The hour of the dropoff timestamp, `HOUR(tpep_dropoff_datetime)`
(`app.py:38`). -/
def dropoffHour (r : TripRecord) : ℕ :=
  r.tpep_dropoff_datetime.hour

/-- Embeds `filterDate` (`app.py:107-112`): keeps rows whose pickup date lies in
the closed interval `[start, stop]`. -/
def filterDate (df : List TripRecord) (start stop : ℕ) : List TripRecord :=
  df.filter fun r =>
    decide (start ≤ r.tpep_pickup_datetime.date ∧ r.tpep_pickup_datetime.date ≤ stop)

/-- Embeds `filterHour` (`app.py:115-120`): keeps rows whose `pickup_hour` lies in
the closed interval `[range.1, range.2]`. -/
def filterHour (df : List TripRecord) (range : ℕ × ℕ) : List TripRecord :=
  df.filter fun r => decide (range.1 ≤ pickup_hour r ∧ pickup_hour r ≤ range.2)

/-- Embeds `filterPaymentType` (`app.py:122-124`): keeps rows whose
`payment_label` is a member of the selection. -/
def filterPaymentType (df : List TripRecord) (selection : List String) : List TripRecord :=
  df.filter fun r => decide (r.payment_label ∈ selection)

/-- The fixed lookup `payment_map` (`app.py:188`):
`{1: 'Credit Card', 2: 'Cash', 3: 'No Charge', 4: 'Dispute'}`. -/
def payment_map (c : ℤ) : Option String :=
  if c = 1 then some "Credit Card"
  else if c = 2 then some "Cash"
  else if c = 3 then some "No Charge"
  else if c = 4 then some "Dispute"
  else none

/-- The derived `payment_label` column (`app.py:189`):
`df['payment_type'].map(payment_map).fillna('Unknown')`.  A null code, and
any code outside the lookup, becomes `"Unknown"`. -/
def paymentLabel : Option ℤ → String
  | none => "Unknown"
  | some c => (payment_map c).getD "Unknown"

/-- A concrete trip record used to instantiate universally quantified
theorems at a specific input. -/
def sampleRecord : TripRecord :=
  { tpep_pickup_datetime := ⟨3, 9⟩
    tpep_dropoff_datetime := ⟨3, 10⟩
    PU_Zone := "JFK Airport"
    fare_amount := 17
    total_amount := 21
    trip_distance := 5
    payment_type := some 2
    payment_label := "Cash" }

/-- Embeds `COUNT(*)` for one `PU_Zone` group of `constructBar`'s query
(`app.py:12-19`). -/
def zoneCount (df : List TripRecord) (z : String) : ℕ :=
  (df.filter fun r => decide (r.PU_Zone = z)).length

/-- The `ORDER BY Number_Of_Trips DESC` ordering of `constructBar`'s rows. -/
def barRel (a b : String × ℕ) : Prop := b.2 ≤ a.2

instance : DecidableRel barRel := fun a b => inferInstanceAs (Decidable (b.2 ≤ a.2))

instance : IsTotal (String × ℕ) barRel := ⟨fun a b => Nat.le_total b.2 a.2⟩

instance : IsTrans (String × ℕ) barRel := ⟨fun _ _ _ h1 h2 => le_trans h2 h1⟩

/-- The `GROUP BY PU_Zone` step of `constructBar`'s query: one
`(zone, count)` row per distinct zone. -/
def zoneCounts (df : List TripRecord) : List (String × ℕ) :=
  (df.map (·.PU_Zone)).dedup.map fun z => (z, zoneCount df z)

/-- Embeds `constructBar` (`app.py:8-30`): group by `PU_Zone`, count per group,
order by count descending, `LIMIT 10`. -/
def constructBar (df : List TripRecord) : List (String × ℕ) :=
  (List.insertionSort barRel (zoneCounts df)).take 10

/-- The zone column of the grouped rows is exactly the distinct zones. -/
theorem zoneCounts_map_fst (df : List TripRecord) :
    (zoneCounts df).map Prod.fst = (df.map (·.PU_Zone)).dedup := by
  simp [zoneCounts, List.map_map, Function.comp_def]

/-- Filtering twice with one predicate equals filtering once. -/
theorem filter_self_idem {α : Type} (p : α → Bool) (l : List α) :
    (l.filter p).filter p = l.filter p := by
  rw [List.filter_filter]
  simp

/-- Two filters over a list commute. -/
theorem filter_swap {α : Type} (p q : α → Bool) (l : List α) :
    (l.filter q).filter p = (l.filter p).filter q := by
  rw [List.filter_filter, List.filter_filter]
  simp [Bool.and_comm]

/-- C4: each of the three filters returns a subset of its input (no record
fabricated) and is idempotent: applying the same filter with the same
constraint twice equals applying it once. -/
theorem filters_subset_and_idempotent (df : List TripRecord) (s e : ℕ)
    (hr : ℕ × ℕ) (sel : List String) :
    (∀ r ∈ filterDate df s e, r ∈ df) ∧
      filterDate (filterDate df s e) s e = filterDate df s e ∧
      (∀ r ∈ filterHour df hr, r ∈ df) ∧
      filterHour (filterHour df hr) hr = filterHour df hr ∧
      (∀ r ∈ filterPaymentType df sel, r ∈ df) ∧
      filterPaymentType (filterPaymentType df sel) sel = filterPaymentType df sel := by
  refine ⟨fun r hrr => List.mem_of_mem_filter hrr, filter_self_idem _ _,
    fun r hrr => List.mem_of_mem_filter hrr, filter_self_idem _ _,
    fun r hrr => List.mem_of_mem_filter hrr, filter_self_idem _ _⟩

/-- C5: applying the date, hour and payment filters in any of the six
possible orders yields the same final record set. -/
theorem filters_order_independent (df : List TripRecord) (s e : ℕ)
    (hr : ℕ × ℕ) (sel : List String) :
    filterPaymentType (filterHour (filterDate df s e) hr) sel =
        filterHour (filterPaymentType (filterDate df s e) sel) hr ∧
      filterPaymentType (filterHour (filterDate df s e) hr) sel =
        filterPaymentType (filterDate (filterHour df hr) s e) sel ∧
      filterPaymentType (filterHour (filterDate df s e) hr) sel =
        filterDate (filterPaymentType (filterHour df hr) sel) s e ∧
      filterPaymentType (filterHour (filterDate df s e) hr) sel =
        filterHour (filterDate (filterPaymentType df sel) s e) hr ∧
      filterPaymentType (filterHour (filterDate df s e) hr) sel =
        filterDate (filterHour (filterPaymentType df sel) hr) s e := by
  unfold filterDate filterHour filterPaymentType
  simp only [List.filter_filter]
  refine ⟨?_, ?_, ?_, ?_, ?_⟩ <;>
    · apply List.filter_congr
      intro a _
      simp only [Bool.and_comm, Bool.and_left_comm, Bool.and_assoc]

/-- C7: the derived payment label is the image of the code under the fixed
lookup, any unmapped code (including null and code 7) yields `"Unknown"`,
and the derivation is a total function. -/
theorem paymentLabel_spec :
    paymentLabel (some 1) = "Credit Card" ∧
      paymentLabel (some 2) = "Cash" ∧
      paymentLabel (some 3) = "No Charge" ∧
      paymentLabel (some 4) = "Dispute" ∧
      paymentLabel none = "Unknown" ∧
      paymentLabel (some 7) = "Unknown" ∧
      ∀ c : ℤ, c ≠ 1 → c ≠ 2 → c ≠ 3 → c ≠ 4 → paymentLabel (some c) = "Unknown" := by
  refine ⟨rfl, rfl, rfl, rfl, rfl, rfl, fun c h1 h2 h3 h4 => ?_⟩
  simp [paymentLabel, payment_map, h1, h2, h3, h4]

/-- C8: a date filter whose start date is strictly after its end date
returns the empty record set, whatever the input contains. -/
theorem filterDate_start_after_end (df : List TripRecord) (s e : ℕ)
    (h : e < s) : filterDate df s e = [] := by
  rw [filterDate, List.filter_eq_nil_iff]
  intro r hr
  simp only [decide_eq_true_eq, not_and]
  intro hs hsub
  omega

/-- C8 witness: at a concrete one-record set with start 5 and end 3, the
date filter returns the empty set. -/
theorem filterDate_start_after_end_witness :
    filterDate [sampleRecord] 5 3 = [] :=
  filterDate_start_after_end [sampleRecord] 5 3 (by decide)

/-- C10: when the selection contains the payment label of every record of
the input, the payment filter is the identity. -/
theorem filterPaymentType_all_selected (df : List TripRecord)
    (sel : List String) (h : ∀ r ∈ df, r.payment_label ∈ sel) :
    filterPaymentType df sel = df := by
  rw [filterPaymentType, List.filter_eq_self]
  intro r hr
  exact decide_eq_true (h r hr)

/-- C10 witness: selecting exactly the labels present (here `"Cash"`) leaves
a concrete record set unchanged. -/
theorem filterPaymentType_all_selected_witness :
    filterPaymentType [sampleRecord] ["Cash"] = [sampleRecord] :=
  filterPaymentType_all_selected [sampleRecord] ["Cash"] (by
    intro r hr
    rw [List.mem_singleton] at hr
    subst hr
    simp [sampleRecord])

/-- C1: the top-N aggregation returns at most 10 rows, at most one row per
distinct zone, each row carrying that zone's record count, with counts
non-increasing in row order; all zones appear when fewer than 10 are
distinct, and empty input yields empty output. -/
theorem constructBar_spec (df : List TripRecord) :
    (constructBar df).length ≤ 10 ∧
      ((constructBar df).map Prod.fst).Nodup ∧
      (constructBar df).Pairwise (fun p q => q.2 ≤ p.2) ∧
      (∀ p ∈ constructBar df, (∃ r ∈ df, r.PU_Zone = p.1) ∧ p.2 = zoneCount df p.1) ∧
      ((df.map (·.PU_Zone)).dedup.length < 10 →
        ∀ z ∈ (df.map (·.PU_Zone)).dedup, ∃ p ∈ constructBar df, p.1 = z) ∧
      (df = [] → constructBar df = []) := by
  have hperm : (List.insertionSort barRel (zoneCounts df)).Perm (zoneCounts df) :=
    List.perm_insertionSort _ _
  have hsorted : List.Pairwise barRel (List.insertionSort barRel (zoneCounts df)) :=
    List.sorted_insertionSort barRel (zoneCounts df)
  refine ⟨?_, ?_, ?_, ?_, ?_, ?_⟩
  · exact List.length_take_le _ _
  · rw [constructBar, List.map_take]
    refine List.Nodup.sublist (List.take_sublist _ _) ?_
    refine (List.Perm.nodup_iff (hperm.map Prod.fst)).mpr ?_
    rw [zoneCounts_map_fst]
    exact List.nodup_dedup _
  · exact List.Pairwise.sublist (List.take_sublist _ _) hsorted
  · intro p hp
    have hp1 : p ∈ List.insertionSort barRel (zoneCounts df) :=
      List.mem_of_mem_take hp
    have hp2 : p ∈ zoneCounts df := hperm.mem_iff.mp hp1
    rw [zoneCounts, List.mem_map] at hp2
    obtain ⟨z, hz, hzp⟩ := hp2
    rw [List.mem_dedup, List.mem_map] at hz
    obtain ⟨r, hrdf, hrz⟩ := hz
    subst hzp
    exact ⟨⟨r, hrdf, hrz⟩, rfl⟩
  · intro hlen z hz
    have hlsort : (List.insertionSort barRel (zoneCounts df)).length ≤ 10 := by
      rw [hperm.length_eq, zoneCounts, List.length_map]
      omega
    have htake : constructBar df = List.insertionSort barRel (zoneCounts df) :=
      List.take_of_length_le hlsort
    refine ⟨(z, zoneCount df z), ?_, rfl⟩
    rw [htake, hperm.mem_iff]
    exact List.mem_map_of_mem _ hz
  · intro h
    subst h
    rfl

/-- The `GROUP BY hour` bucket of `constructLine`'s query (`app.py:36-43`):
the records whose dropoff timestamp falls in hour `h`. -/
def hourBucket (df : List TripRecord) (h : ℕ) : List TripRecord :=
  df.filter fun r => decide (dropoffHour r = h)

/-- Embeds `AVG(fare_amount)` over one dropoff-hour bucket. -/
def avg_fare (df : List TripRecord) (h : ℕ) : ℚ :=
  ((hourBucket df h).map (·.fare_amount)).sum / (hourBucket df h).length

/-- Embeds `constructLine` (`app.py:32-52`): group by `HOUR(tpep_dropoff_datetime)`,
average `fare_amount` per populated hour, order by hour ascending.  SQL
emits only populated groups, so the hours `0..23` are scanned in order and
the empty buckets dropped. -/
def constructLine (df : List TripRecord) : List (ℕ × ℚ) :=
  ((List.range 24).filter fun h => !(hourBucket df h).isEmpty).map
    fun h => (h, avg_fare df h)

/-- C2: the hourly aggregation emits one row per dropoff hour that holds at
least one record, sorted strictly ascending by hour; each row's value is
the arithmetic mean of `fare_amount` over that dropoff-hour bucket, and
empty hours are omitted (every emitted hour has a contributing record). -/
theorem constructLine_spec (df : List TripRecord) :
    (constructLine df).Pairwise (fun p q => p.1 < q.1) ∧
      (∀ p ∈ constructLine df,
        (∃ r ∈ df, dropoffHour r = p.1) ∧ p.1 < 24 ∧
          p.2 * (hourBucket df p.1).length = ((hourBucket df p.1).map (·.fare_amount)).sum) ∧
      (∀ h : ℕ, (∃ r ∈ df, dropoffHour r = h) → (h, avg_fare df h) ∈ constructLine df) ∧
      (df = [] → constructLine df = []) := by
  refine ⟨?_, ?_, ?_, ?_⟩
  · rw [constructLine, List.pairwise_map]
    exact List.Pairwise.sublist (List.filter_sublist _) (List.pairwise_lt_range 24)
  · intro p hp
    rw [constructLine, List.mem_map] at hp
    obtain ⟨h, hh, rfl⟩ := hp
    rw [List.mem_filter, List.mem_range] at hh
    obtain ⟨hlt, hne⟩ := hh
    have hbne : hourBucket df h ≠ [] := by simpa using hne
    obtain ⟨r, hrb⟩ := List.exists_mem_of_ne_nil _ hbne
    rw [hourBucket, List.mem_filter, decide_eq_true_eq] at hrb
    refine ⟨⟨r, hrb.1, hrb.2⟩, hlt, ?_⟩
    have hlen : ((hourBucket df h).length : ℚ) ≠ 0 :=
      Nat.cast_ne_zero.mpr (List.length_pos.mpr hbne).ne'
    exact div_mul_cancel₀ _ hlen
  · rintro h ⟨r, hrdf, hrh⟩
    have hmem : r ∈ hourBucket df h :=
      List.mem_filter.mpr ⟨hrdf, decide_eq_true hrh⟩
    have hlt : h < 24 := by
      rw [← hrh]
      exact r.tpep_dropoff_datetime.hour.isLt
    rw [constructLine]
    refine List.mem_map_of_mem _ (List.mem_filter.mpr ⟨List.mem_range.mpr hlt, ?_⟩)
    simpa using List.ne_nil_of_mem hmem
  · intro h
    subst h
    rfl

/-- Minimum of a list of rationals (0 for the empty list; the empty case is
never reached through a guarded call). -/
def listMin : List ℚ → ℚ
  | [] => 0
  | x :: t => t.foldl min x

/-- Maximum of a list of rationals (0 for the empty list). -/
def listMax : List ℚ → ℚ
  | [] => 0
  | x :: t => t.foldl max x

/-- A `min`-fold is below its initial accumulator. -/
theorem foldl_min_le_init (t : List ℚ) (a : ℚ) : t.foldl min a ≤ a := by
  induction t generalizing a with
  | nil => exact le_refl a
  | cons b t ih => exact le_trans (ih (min a b)) (min_le_left a b)

/-- A `min`-fold is below every list element. -/
theorem foldl_min_le_mem {x : ℚ} (t : List ℚ) (a : ℚ) (h : x ∈ t) :
    t.foldl min a ≤ x := by
  induction t generalizing a with
  | nil => cases h
  | cons b t ih =>
    rcases List.mem_cons.mp h with hb | ht
    · subst hb
      exact le_trans (foldl_min_le_init t (min a x)) (min_le_right a x)
    · exact ih (min a b) ht

/-- The list minimum is a lower bound of the list. -/
theorem listMin_le_of_mem {x : ℚ} {xs : List ℚ} (h : x ∈ xs) : listMin xs ≤ x := by
  cases xs with
  | nil => cases h
  | cons a t =>
    rcases List.mem_cons.mp h with ha | ht
    · subst ha
      exact foldl_min_le_init t x
    · exact foldl_min_le_mem t a ht

/-- A `max`-fold is above its initial accumulator. -/
theorem le_foldl_max_init (t : List ℚ) (a : ℚ) : a ≤ t.foldl max a := by
  induction t generalizing a with
  | nil => exact le_refl a
  | cons b t ih => exact le_trans (le_max_left a b) (ih (max a b))

/-- A `max`-fold is above every list element. -/
theorem le_foldl_max_mem {x : ℚ} (t : List ℚ) (a : ℚ) (h : x ∈ t) :
    x ≤ t.foldl max a := by
  induction t generalizing a with
  | nil => cases h
  | cons b t ih =>
    rcases List.mem_cons.mp h with hb | ht
    · subst hb
      exact le_trans (le_max_right a x) (le_foldl_max_init t (max a x))
    · exact ih (max a b) ht

/-- The list maximum is an upper bound of the list. -/
theorem le_listMax_of_mem {x : ℚ} {xs : List ℚ} (h : x ∈ xs) : x ≤ listMax xs := by
  cases xs with
  | nil => cases h
  | cons a t =>
    rcases List.mem_cons.mp h with ha | ht
    · subst ha
      exact le_foldl_max_init t x
    · exact le_foldl_max_mem t a ht

/-- On a constant list the `min`-fold returns the constant. -/
theorem foldl_min_const {d : ℚ} (t : List ℚ) (h : ∀ x ∈ t, x = d) :
    t.foldl min d = d := by
  induction t with
  | nil => rfl
  | cons b t ih =>
    have hb : b = d := h b (List.mem_cons_self b t)
    subst hb
    rw [List.foldl_cons, min_self]
    exact ih fun x hx => h x (List.mem_cons_of_mem b hx)

/-- On a constant list the `max`-fold returns the constant. -/
theorem foldl_max_const {d : ℚ} (t : List ℚ) (h : ∀ x ∈ t, x = d) :
    t.foldl max d = d := by
  induction t with
  | nil => rfl
  | cons b t ih =>
    have hb : b = d := h b (List.mem_cons_self b t)
    subst hb
    rw [List.foldl_cons, max_self]
    exact ih fun x hx => h x (List.mem_cons_of_mem b hx)

/-- The `trip_distance` column in ascending order, the base of the
percentile computation of `df["trip_distance"].quantile(0.99)`
(`app.py:55`). -/
def sortedDistances (df : List TripRecord) : List ℚ :=
  List.insertionSort (fun a b : ℚ => a ≤ b) (df.map (·.trip_distance))

/-- The linear-interpolation percentile rank 0.99 of a sorted list `s` of
length `n`: the virtual position is `0.99 * (n - 1)`, and the value
interpolates linearly between the order statistics on either side of it. -/
def interp99 (s : List ℚ) : ℚ :=
  s.getD (99 * (s.length - 1) / 100) 0 +
    ((99 * (s.length - 1) % 100 : ℕ) : ℚ) / 100 *
      (s.getD (99 * (s.length - 1) / 100 + 1) (s.getD (99 * (s.length - 1) / 100) 0) -
        s.getD (99 * (s.length - 1) / 100) 0)

/-- Embeds `df["trip_distance"].quantile(0.99)` (`app.py:55`), with pandas'
default linear interpolation over the sorted distances.  (On an empty
column pandas yields NaN, and every subsequent `<=` comparison is false;
the value returned here for that case is irrelevant for the same reason:
the clip of an empty record set is empty.) -/
def quantile99 (df : List TripRecord) : ℚ :=
  if df.map (·.trip_distance) = [] then 0 else interp99 (sortedDistances df)

/-- The outlier clip `df[df["trip_distance"] <= max_distance]`
(`app.py:58`). -/
def clippedHist (df : List TripRecord) : List TripRecord :=
  df.filter fun r => decide (r.trip_distance ≤ quantile99 df)

/-- The fixed bin width of the 285-bin histogram. -/
def binW (xs : List ℚ) : ℚ := (listMax xs - listMin xs) / 285

/-- Modelled from the spec: the fixed-width 285-bin histogram of §4.4.  The
binning itself happens inside the external charting call
`px.histogram(..., nbins=285)` (`app.py:57-63`), whose code is not part of
this repository; following the spec's words, the bins are 285 equal-width
intervals spanning the minimum to the maximum of the clipped values, and
the degenerate zero-width domain (empty input, or all values equal) is
guarded explicitly: empty input yields no bins, a zero-range input yields
a single bin holding all records, and no division by zero occurs. -/
def histogram285 (xs : List ℚ) : List (ℚ × ℚ × ℕ) :=
  if xs = [] then []
  else if listMax xs ≤ listMin xs then [(listMin xs, listMax xs, xs.length)]
  else
    (List.range 285).map fun i : ℕ =>
      (listMin xs + (i : ℚ) * binW xs, listMin xs + ((i : ℚ) + 1) * binW xs,
        (xs.filter fun x =>
          decide (listMin xs + (i : ℚ) * binW xs ≤ x ∧
            (x < listMin xs + ((i : ℚ) + 1) * binW xs ∨ i = 284))).length)

/-- Embeds `constructHist` (`app.py:54-64`): clip at the 99th percentile of
`trip_distance`, then histogram the clipped distances into 285 bins. -/
def constructHist (df : List TripRecord) : List (ℚ × ℚ × ℕ) :=
  histogram285 ((clippedHist df).map (·.trip_distance))

/-- The interpolated 99th percentile of a sorted nonempty list lies between
two list elements. -/
theorem interp99_between {s : List ℚ} (hs : List.Sorted (fun a b : ℚ => a ≤ b) s)
    (hpos : 0 < s.length) :
    ∃ a ∈ s, ∃ b ∈ s, a ≤ b ∧ a ≤ interp99 s ∧ interp99 s ≤ b := by
  have hjlt : 99 * (s.length - 1) / 100 < s.length := by
    have h1 : 99 * (s.length - 1) ≤ 100 * (s.length - 1) := by omega
    have h2 := Nat.div_le_div_right (c := 100) h1
    rw [Nat.mul_div_cancel_left _ (by norm_num)] at h2
    omega
  have hg0 : (0 : ℚ) ≤ ((99 * (s.length - 1) % 100 : ℕ) : ℚ) / 100 := by positivity
  have hg1 : ((99 * (s.length - 1) % 100 : ℕ) : ℚ) / 100 ≤ 1 := by
    rw [div_le_one (by norm_num)]
    exact_mod_cast le_of_lt (Nat.mod_lt _ (by norm_num))
  have hxlo : s.getD (99 * (s.length - 1) / 100) 0 = s[99 * (s.length - 1) / 100] :=
    List.getD_eq_getElem s 0 hjlt
  by_cases hj2 : 99 * (s.length - 1) / 100 + 1 < s.length
  · have hxhi :
        s.getD (99 * (s.length - 1) / 100 + 1) (s.getD (99 * (s.length - 1) / 100) 0) =
          s[99 * (s.length - 1) / 100 + 1] :=
      List.getD_eq_getElem s _ hj2
    have hab : s[99 * (s.length - 1) / 100] ≤ s[99 * (s.length - 1) / 100 + 1] :=
      hs.rel_get_of_lt (a := ⟨_, hjlt⟩) (b := ⟨_, hj2⟩) (by simp)
    refine ⟨s[99 * (s.length - 1) / 100], List.getElem_mem hjlt,
      s[99 * (s.length - 1) / 100 + 1], List.getElem_mem hj2, hab, ?_, ?_⟩
    · rw [interp99, hxhi, hxlo]
      nlinarith [mul_nonneg hg0 (sub_nonneg.mpr hab)]
    · rw [interp99, hxhi, hxlo]
      nlinarith [mul_le_of_le_one_left (sub_nonneg.mpr hab) hg1]
  · have hxhi :
        s.getD (99 * (s.length - 1) / 100 + 1) (s.getD (99 * (s.length - 1) / 100) 0) =
          s.getD (99 * (s.length - 1) / 100) 0 :=
      List.getD_eq_default _ _ (by omega)
    refine ⟨s[99 * (s.length - 1) / 100], List.getElem_mem hjlt,
      s[99 * (s.length - 1) / 100], List.getElem_mem hjlt, le_refl _, ?_, ?_⟩
    · rw [interp99, hxhi, hxlo]
      nlinarith
    · rw [interp99, hxhi, hxlo]
      nlinarith

/-- The 99th-percentile threshold lies between the smallest and the largest
distance of a nonempty record set. -/
theorem quantile99_between (df : List TripRecord)
    (h : df.map (·.trip_distance) ≠ []) :
    listMin (df.map (·.trip_distance)) ≤ quantile99 df ∧
      quantile99 df ≤ listMax (df.map (·.trip_distance)) := by
  have hperm : (sortedDistances df).Perm (df.map (·.trip_distance)) :=
    List.perm_insertionSort _ _
  have hsorted : List.Sorted (fun a b : ℚ => a ≤ b) (sortedDistances df) :=
    List.sorted_insertionSort _ _
  have hpos : 0 < (sortedDistances df).length := by
    rw [hperm.length_eq]
    exact List.length_pos.mpr h
  obtain ⟨a, ha, b, hb, hab, hal, har⟩ := interp99_between hsorted hpos
  have hq : quantile99 df = interp99 (sortedDistances df) := by
    rw [quantile99, if_neg h]
  constructor
  · rw [hq]
    exact le_trans (listMin_le_of_mem (hperm.mem_iff.mp ha)) hal
  · rw [hq]
    exact le_trans har (le_listMax_of_mem (hperm.mem_iff.mp hb))

/-- C3: the distance aggregation clips at the linear-interpolation 99th
percentile of `trip_distance` — a threshold lying between the smallest and
largest distance — retaining exactly the records at or below it, and bins
the clipped distances into exactly 285 equal-width bins spanning the
minimum to the maximum of the clipped subset. -/
theorem constructHist_spec (df : List TripRecord) :
    (∀ r, r ∈ clippedHist df ↔ r ∈ df ∧ r.trip_distance ≤ quantile99 df) ∧
      (df.map (·.trip_distance) ≠ [] →
        listMin (df.map (·.trip_distance)) ≤ quantile99 df ∧
          quantile99 df ≤ listMax (df.map (·.trip_distance))) ∧
      ((clippedHist df).map (·.trip_distance) ≠ [] →
        listMin ((clippedHist df).map (·.trip_distance)) <
            listMax ((clippedHist df).map (·.trip_distance)) →
          (constructHist df).length = 285 ∧
            ((constructHist df).headD (0, 0, 0)).1 =
              listMin ((clippedHist df).map (·.trip_distance)) ∧
            ((constructHist df).getLastD (0, 0, 0)).2.1 =
              listMax ((clippedHist df).map (·.trip_distance)) ∧
            ∀ b ∈ constructHist df,
              b.2.1 - b.1 = binW ((clippedHist df).map (·.trip_distance))) := by
  refine ⟨?_, quantile99_between df, ?_⟩
  · intro r
    simp [clippedHist, List.mem_filter]
  · intro hne hlt
    set xs := (clippedHist df).map (·.trip_distance) with hxs
    have hform : constructHist df = (List.range 285).map fun i : ℕ =>
        (listMin xs + (i : ℚ) * binW xs, listMin xs + ((i : ℚ) + 1) * binW xs,
          (xs.filter fun x =>
            decide (listMin xs + (i : ℚ) * binW xs ≤ x ∧
              (x < listMin xs + ((i : ℚ) + 1) * binW xs ∨ i = 284))).length) := by
      rw [constructHist, ← hxs, histogram285, if_neg hne, if_neg (not_le.mpr hlt)]
    refine ⟨?_, ?_, ?_, ?_⟩
    · rw [hform, List.length_map, List.length_range]
    · have h285 : List.range 285 = 0 :: List.map Nat.succ (List.range 284) :=
        List.range_succ_eq_map 284
      rw [hform, h285, List.map_cons, List.headD_cons]
      norm_num
    · have h285 : List.range 285 = List.range 284 ++ [284] := List.range_succ 284
      rw [hform, h285, List.map_append, List.map_singleton, List.getLastD_concat]
      show listMin xs + ((284 : ℕ) + 1 : ℚ) * binW xs = listMax xs
      rw [show ((284 : ℕ) : ℚ) + 1 = 285 by norm_num, binW,
        mul_div_cancel₀ _ (by norm_num : (285 : ℚ) ≠ 0)]
      ring
    · intro b hb
      rw [hform] at hb
      obtain ⟨i, hi, rfl⟩ := List.mem_map.mp hb
      show (listMin xs + ((i : ℚ) + 1) * binW xs) - (listMin xs + (i : ℚ) * binW xs) = binW xs
      ring

/-- C9: the histogram's degenerate domains are guarded: an empty clipped
subset yields an empty histogram, and a zero-range clipped subset (all
retained distances equal) yields a single zero-width bin holding every
record; in both cases the computation is total and no division by zero is
performed. -/
theorem constructHist_degenerate (df : List TripRecord) :
    (clippedHist df = [] → constructHist df = []) ∧
      ∀ d : ℚ, (clippedHist df).map (·.trip_distance) ≠ [] →
        (∀ x ∈ (clippedHist df).map (·.trip_distance), x = d) →
          constructHist df = [(d, d, (clippedHist df).length)] := by
  constructor
  · intro h
    rw [constructHist, h]
    rfl
  · intro d hne hall
    obtain ⟨a, t, hat⟩ := List.exists_cons_of_ne_nil hne
    have hmin : listMin ((clippedHist df).map (·.trip_distance)) = d := by
      rw [hat]
      rw [hat] at hall
      have ha : a = d := hall a (List.mem_cons_self a t)
      subst ha
      show t.foldl min a = a
      exact foldl_min_const t fun x hx => hall x (List.mem_cons_of_mem a hx)
    have hmax : listMax ((clippedHist df).map (·.trip_distance)) = d := by
      rw [hat]
      rw [hat] at hall
      have ha : a = d := hall a (List.mem_cons_self a t)
      subst ha
      show t.foldl max a = a
      exact foldl_max_const t fun x hx => hall x (List.mem_cons_of_mem a hx)
    rw [constructHist, histogram285, if_neg hne,
      if_pos (le_of_eq (hmax.trans hmin.symm)), hmin, hmax, List.length_map]

/-- Indicator sums over keys a key does not belong to vanish. -/
theorem sum_map_ind_zero {κ : Type} [DecidableEq κ] (ks : List κ) (k0 : κ)
    (h : k0 ∉ ks) : (ks.map fun k => if k0 = k then (1 : ℕ) else 0).sum = 0 := by
  induction ks with
  | nil => rfl
  | cons a t ih =>
    have hne : k0 ≠ a := fun he => h (by rw [he]; exact List.mem_cons_self a t)
    have hnt : k0 ∉ t := fun ht => h (List.mem_cons_of_mem a ht)
    rw [List.map_cons, List.sum_cons, if_neg hne, ih hnt]

/-- Over a duplicate-free key list containing `k0`, the indicator of `k0`
sums to one. -/
theorem sum_map_ind_one {κ : Type} [DecidableEq κ] (ks : List κ) (k0 : κ)
    (hnd : ks.Nodup) (hk : k0 ∈ ks) :
    (ks.map fun k => if k0 = k then (1 : ℕ) else 0).sum = 1 := by
  induction ks with
  | nil => cases hk
  | cons a t ih =>
    rcases List.mem_cons.mp hk with he | ht
    · rw [List.map_cons, List.sum_cons, if_pos he,
        sum_map_ind_zero t k0 (he ▸ (List.nodup_cons.mp hnd).1)]
    · have hne : k0 ≠ a := fun he => (List.nodup_cons.mp hnd).1 (he ▸ ht)
      rw [List.map_cons, List.sum_cons, if_neg hne,
        ih (List.nodup_cons.mp hnd).2 ht]

/-- Summing pointwise sums over a list splits. -/
theorem sum_map_add_nat {κ : Type} (ks : List κ) (f g : κ → ℕ) :
    (ks.map fun k => f k + g k).sum = (ks.map f).sum + (ks.map g).sum := by
  induction ks with
  | nil => rfl
  | cons a t ih =>
    rw [List.map_cons, List.map_cons, List.map_cons, List.sum_cons,
      List.sum_cons, List.sum_cons, ih]
    omega

/-- Grouping partitions a list: over any duplicate-free key list covering
every record's key, the per-key group sizes sum to the list's length. -/
theorem length_eq_sum_keyCounts {α κ : Type} [DecidableEq κ] (key : α → κ)
    (l : List α) (ks : List κ) (hnd : ks.Nodup) (hcov : ∀ a ∈ l, key a ∈ ks) :
    (ks.map fun k => (l.filter fun a => decide (key a = k)).length).sum = l.length := by
  induction l with
  | nil => simp
  | cons a t ih =>
    have hstep : (fun k => ((a :: t).filter fun x => decide (key x = k)).length) =
        fun k => (if key a = k then 1 else 0) +
          (t.filter fun x => decide (key x = k)).length := by
      funext k
      by_cases hk : key a = k <;> simp [List.filter_cons, hk, Nat.add_comm]
    rw [hstep, sum_map_add_nat,
      ih fun x hx => hcov x (List.mem_cons_of_mem a hx),
      sum_map_ind_one ks (key a) hnd (hcov a (List.mem_cons_self a t)),
      List.length_cons]
    omega

/-- The `GROUP BY day_of_week, hour` key of `constructHeat`'s query
(`app.py:82-90`): `(DAYNAME(tpep_pickup_datetime), HOUR(tpep_pickup_datetime))`. -/
def heatKey (r : TripRecord) : String × ℕ :=
  (dayname r.tpep_pickup_datetime, (r.tpep_pickup_datetime.hour : ℕ))

/-- Embeds `COUNT(*)` for one `(day, hour)` group of `constructHeat`'s query. -/
def keyCount (df : List TripRecord) (k : String × ℕ) : ℕ :=
  (df.filter fun r => decide (heatKey r = k)).length

/-- The `ORDER BY hour` ordering of `constructHeat`'s rows. -/
def heatRel (a b : String × ℕ) : Prop := a.2 ≤ b.2

instance : DecidableRel heatRel := fun a b => inferInstanceAs (Decidable (a.2 ≤ b.2))

instance : IsTotal (String × ℕ) heatRel := ⟨fun a b => Nat.le_total a.2 b.2⟩

instance : IsTrans (String × ℕ) heatRel := ⟨fun _ _ _ h1 h2 => le_trans h1 h2⟩

/-- Embeds `constructHeat` (`app.py:78-103`): group by the pickup day name and
pickup hour, count records per pair, order by hour. -/
def constructHeat (df : List TripRecord) : List (String × ℕ × ℕ) :=
  (List.insertionSort heatRel (df.map heatKey).dedup).map
    fun k => (k.1, k.2, keyCount df k)

/-- C6: every heatmap row carries a positive count equal to the number of
records of its `(pickup day name, pickup hour)` pair, a row exists exactly
for the pairs occurring in the input, and the emitted counts sum to the
number of input records. -/
theorem constructHeat_spec (df : List TripRecord) :
    (∀ t ∈ constructHeat df, 0 < t.2.2 ∧ t.2.2 = keyCount df (t.1, t.2.1) ∧
        ∃ r ∈ df, heatKey r = (t.1, t.2.1)) ∧
      (∀ r ∈ df, ∃ t ∈ constructHeat df, (t.1, t.2.1) = heatKey r) ∧
      ((constructHeat df).map fun t => t.2.2).sum = df.length := by
  have hperm :
      (List.insertionSort heatRel (df.map heatKey).dedup).Perm (df.map heatKey).dedup :=
    List.perm_insertionSort _ _
  refine ⟨?_, ?_, ?_⟩
  · intro t ht
    rw [constructHeat, List.mem_map] at ht
    obtain ⟨k, hk, rfl⟩ := ht
    have hk2 : k ∈ (df.map heatKey).dedup := hperm.mem_iff.mp hk
    rw [List.mem_dedup, List.mem_map] at hk2
    obtain ⟨r, hrdf, hrk⟩ := hk2
    refine ⟨?_, rfl, r, hrdf, hrk⟩
    have hrmem : r ∈ df.filter fun x => decide (heatKey x = k) :=
      List.mem_filter.mpr ⟨hrdf, decide_eq_true hrk⟩
    exact List.length_pos.mpr (List.ne_nil_of_mem hrmem)
  · intro r hrdf
    exact ⟨((heatKey r).1, (heatKey r).2, keyCount df (heatKey r)),
      List.mem_map_of_mem _
        (hperm.mem_iff.mpr (List.mem_dedup.mpr (List.mem_map_of_mem _ hrdf))), rfl⟩
  · rw [constructHeat, List.map_map]
    have hfn : ((fun t : String × ℕ × ℕ => t.2.2) ∘
        fun k : String × ℕ => (k.1, k.2, keyCount df k)) = fun k => keyCount df k := rfl
    rw [hfn, (hperm.map fun k => keyCount df k).sum_eq]
    exact length_eq_sum_keyCounts heatKey df _ (List.nodup_dedup _)
      fun a ha => List.mem_dedup.mpr (List.mem_map_of_mem _ ha)
